import Mathlib

/-!
Shallow embedding of the autogit manager of `libgit/autogit_manager.go`
(package `libgit` of the kbfs repository).

Time is modeled as `Int` (nanoseconds on the common-clock timeline, matching
Go `time.Time`/`time.Duration` arithmetic for the comparisons the code makes).
The destination checkout directory is modeled as a flat association list of
file names to file records (modification time and content), which is exactly
the slice of the billy filesystem interface the manager touches: Create,
Stat, Remove, Chtimes and writing a string into a freshly created file.
Collaborator calls whose internals live outside this file (per-job config
construction, repo lookup, git Reset, and so on) are modeled as injectable
outcomes, so that every error path of the Go code is representable.
-/

namespace Autogit

/-- Go error values as the manager observes them: `notExist` is any error for
which `os.IsNotExist` holds, `ctxCanceled` is `context.Canceled`, and
`other` carries the message of any further error. -/
inductive GoErr where
  | notExist
  | ctxCanceled
  | other (msg : String)
deriving DecidableEq, Repr

/-- The `Error() string` method of a Go error. -/
def GoErr.message : GoErr → String
  | .notExist => "file does not exist"
  | .ctxCanceled => "context canceled"
  | .other msg => msg

/-- A file in the destination checkout: modification time (common-clock
`Int`) and content. -/
structure FsFile where
  modTime : Int
  content : String
deriving DecidableEq, Repr

/-- The destination checkout directory, as an association list from file
name to file. Later bindings shadow nothing: the map operations below keep
at most one binding per key. -/
abbrev FS := List (String × FsFile)

/-- First-binding lookup in an association list (Go map read). -/
def lookupId {β : Type} : List (String × β) → String → Option β
  | [], _ => none
  | (k2, v) :: l, k => if k2 = k then some v else lookupId l k

/-- Remove every binding of a key (Go `delete`). -/
def eraseId {β : Type} : List (String × β) → String → List (String × β)
  | [], _ => []
  | (k2, v) :: l, k => if k2 = k then eraseId l k else (k2, v) :: eraseId l k

/-- Insert or replace a binding (Go map write). -/
def insertId {β : Type} (l : List (String × β)) (k : String) (v : β) :
    List (String × β) :=
  (k, v) :: eraseId l k

/-- `billy.Filesystem.Stat`: `none` models the `os.IsNotExist` error. -/
def fsStat (fs : FS) (name : String) : Option FsFile := lookupId fs name

/-- `billy.Filesystem.Create`: creates or truncates the file, setting its
modification time to the local clock reading `now`. -/
def fsCreate (fs : FS) (name : String) (now : Int) : FS :=
  insertId fs name ⟨now, ""⟩

/-- `billy.Filesystem.Chtimes` for the modification time argument. -/
def fsChtimes (fs : FS) (name : String) (mtime : Int) : Except GoErr FS :=
  match lookupId fs name with
  | none => .error .notExist
  | some f => .ok (insertId fs name { f with modTime := mtime })

/-- `billy.Filesystem.Remove`: removing a missing file yields the
`os.IsNotExist` error, as the source itself assumes at the last-error
removal site (it checks `os.IsNotExist(err)` there). -/
def fsRemove (fs : FS) (name : String) : Except GoErr FS :=
  match lookupId fs name with
  | none => .error .notExist
  | some _ => .ok (eraseId fs name)

/-- `io.WriteString` into an open (just created) file handle. -/
def fsWrite (fs : FS) (name : String) (s : String) : FS :=
  match lookupId fs name with
  | none => fs
  | some f => insertId fs name { f with content := s }

/-- `autogitLockName` from the source. -/
def autogitLockName (srcRepo : String) : String :=
  ".autogit_" ++ srcRepo ++ ".lock"

/-- `autogitWorkingName` from the source. -/
def autogitWorkingName (srcRepo : String) : String :=
  ".autogit_" ++ srcRepo ++ ".working"

/-- `autogitLastErrName` from the source. -/
def autogitLastErrName (srcRepo : String) : String :=
  ".autogit_" ++ srcRepo ++ ".lasterr"

/-- `workTimeLimit = 1 * time.Hour`, in nanoseconds. -/
def workTimeLimit : Int := 3600000000000

/-- The clock inputs of `commonTime`: the mdserver offset estimate
(`OffsetFromServerTime`, `none` when `haveOffset` is false) and the local
clock reading `Clock().Now()`. -/
structure ClockState where
  offset : Option Int
  now : Int
deriving DecidableEq, Repr

/-- `AutogitManager.commonTime`: `Now().Add(-offset)` when an offset is
known, otherwise the plain local clock. -/
def commonTime (c : ClockState) : Int :=
  match c.offset with
  | none => c.now
  | some off => c.now - off

/-- `AutogitManager.canWorkOnRepo`: under the per-repo lock file, stat the
working marker; create it if absent, deny if its timestamp is within
`workTimeLimit` of common time, otherwise reclaim; in both granting branches
set the marker timestamp to the current common time via Chtimes. -/
def canWorkOnRepo (c : ClockState) (fs : FS) (repo : String) :
    Except GoErr (Bool × FS) :=
  let fs := fsCreate fs (autogitLockName repo) c.now
  let workingFileName := autogitWorkingName repo
  let currCommonTime := commonTime c
  match fsStat fs workingFileName with
  | none =>
      let fs := fsCreate fs workingFileName c.now
      match fsChtimes fs workingFileName currCommonTime with
      | .error e => .error e
      | .ok fs => .ok (true, fs)
  | some fi =>
      if fi.modTime + workTimeLimit > currCommonTime then
        .ok (false, fs)
      else
        match fsChtimes fs workingFileName currCommonTime with
        | .error e => .error e
        | .ok fs => .ok (true, fs)

/-- The tail of `workDoneOnRepo` after both removals: write a fresh
last-error file when the finished work reported an error. -/
def workDoneFinish (c : ClockState) (fs : FS) (repo : String)
    (workErr : Option String) : FS × Option GoErr :=
  match workErr with
  | none => (fs, none)
  | some msg =>
      let fs := fsCreate fs (autogitLastErrName repo) c.now
      (fsWrite fs (autogitLastErrName repo) msg, none)

/-- `AutogitManager.workDoneOnRepo`: under the per-repo lock file, remove
the working marker (an error here, including not-exist, is returned), remove
a stale last-error marker tolerating only not-exist, then record the work
error if there was one. The pair carries the resulting directory state and
the returned error. -/
def workDoneOnRepo (c : ClockState) (fs : FS) (repo : String)
    (workErr : Option String) : FS × Option GoErr :=
  let fs1 := fsCreate fs (autogitLockName repo) c.now
  match fsRemove fs1 (autogitWorkingName repo) with
  | .error e => (fs1, some e)
  | .ok fs2 =>
      match fsRemove fs2 (autogitLastErrName repo) with
      | .error e =>
          if e = GoErr.notExist then workDoneFinish c fs2 repo workErr
          else (fs2, some e)
      | .ok fs3 => workDoneFinish c fs3 repo workErr

/-- `resetReq` from the source. TLF handles appear only through
`GetCanonicalPath`, so they are modeled by their canonical path strings; a
Go completion channel of unit values is modeled by a numeric channel
identity (`doneCh`), with closing tracked in the manager state. -/
structure ResetReq where
  srcTLF : String
  srcRepo : String
  branchName : String
  dstTLF : String
  dstDir : String
  doneCh : Nat
deriving DecidableEq, Repr

/-- `resetReq.id()`: `path.Join(dstTLF.GetCanonicalPath(), dstDir, srcRepo)`.
The components the manager joins are clean non-empty path segments, for
which Go `path.Join` is plain slash interleaving. The branch name does not
appear. -/
def ResetReq.id (r : ResetReq) : String :=
  r.dstTLF ++ "/" ++ r.dstDir ++ "/" ++ r.srcRepo

/-- `deleteReq` from the source. -/
structure DeleteReq where
  dstTLF : String
  dstDir : String
  repo : String
  branchName : String
  doneCh : Nat
deriving DecidableEq, Repr

/-- The mutable coordination state of `AutogitManager` that the reset path
touches under `am.lock`, together with the unbounded reset dispatch queue
(`resetQueue`, an infinite channel, so sends never block) and the set of
completion channels that have been closed. `resetsWGCount` is the counter of
the `resetsWG` repeated wait group. -/
structure AMState where
  resetsInQueue : List (String × ResetReq)
  resetsInProgress : List (String × ResetReq)
  resetQueue : List ResetReq
  resetsWGCount : Int
  closedChans : List Nat
deriving DecidableEq, Repr

/-- `AutogitManager.markResetReqInProgress`: under the lock, return the
occupying request's completion channel if the identity is already in
progress; otherwise remove the identity from the queued map, claim it in the
in-progress map, and return nil (`none`). -/
def markResetReqInProgress (am : AMState) (req : ResetReq) :
    AMState × Option Nat :=
  match lookupId am.resetsInProgress req.id with
  | some inProgress => (am, some inProgress.doneCh)
  | none =>
      ({ am with
          resetsInQueue := eraseId am.resetsInQueue req.id,
          resetsInProgress := insertId am.resetsInProgress req.id req },
        none)

/-- `AutogitManager.clearFromInProgress`: drop the identity from the
in-progress map and call `resetsWG.Done()`. -/
def clearFromInProgress (am : AMState) (req : ResetReq) : AMState :=
  { am with
      resetsInProgress := eraseId am.resetsInProgress req.id,
      resetsWGCount := am.resetsWGCount - 1 }

/-- `AutogitManager.queueReset`. `ctxCancelled` selects the `ctx.Done()`
arm of the select during the queue push; because the queue is unbounded, the
recovery goroutine that re-sends the request on the queue always delivers,
so its effect is folded into the resulting state. The second
component is the returned channel (nil as `none`), the third the returned
error. -/
def queueReset (am : AMState) (req : ResetReq) (ctxCancelled : Bool) :
    AMState × Option Nat × Option GoErr :=
  match lookupId am.resetsInQueue req.id with
  | some r => (am, some r.doneCh, none)
  | none =>
      let am := { am with
                    resetsWGCount := am.resetsWGCount + 1,
                    resetsInQueue := insertId am.resetsInQueue req.id req }
      if ctxCancelled then
        ({ am with resetQueue := am.resetQueue ++ [req] },
          none, some GoErr.ctxCanceled)
      else
        ({ am with resetQueue := am.resetQueue ++ [req] },
          some req.doneCh, none)

/-- `AutogitManager.Pull`: builds the `resetReq` (with a fresh completion
channel `freshCh`) and submits it through `queueReset`. -/
def Pull (am : AMState) (srcTLF srcRepo branchName dstTLF dstDir : String)
    (freshCh : Nat) (ctxCancelled : Bool) :
    AMState × Option Nat × Option GoErr :=
  queueReset am ⟨srcTLF, srcRepo, branchName, dstTLF, dstDir, freshCh⟩
    ctxCancelled

/-- The tail of a `resetWorker` iteration once the request is claimed:
`_ = am.doReset(ctx, req)` (its error is discarded), then
`clearFromInProgress`, then `close(req.doneCh)`. The job itself is the
collaborator `doRes`, acting on an arbitrary external world `W` and
returning an optional error message. -/
def resetWorkerRun {W : Type} (doRes : W → ResetReq → W × Option String)
    (am : AMState) (w : W) (req : ResetReq) : AMState × W :=
  let r := doRes w req
  let am2 := clearFromInProgress am req
  ({ am2 with closedChans := req.doneCh :: am2.closedChans }, r.1)

/-- `AutogitManager.deleteLoop`: drain the delete queue, run
`_ = am.doDelete(req)` discarding its error, and close each request's
completion channel. `closed` accumulates the closed channels. -/
def deleteLoopRun {W : Type} (doDel : W → DeleteReq → W × Option String) :
    W → List DeleteReq → List Nat → W × List Nat
  | w, [], closed => (w, closed)
  | w, req :: rest, closed =>
      deleteLoopRun doDel (doDel w req).1 rest (req.doneCh :: closed)

/-- Outcomes of the collaborator calls `doReset` makes before and while
holding the lease: per-job config construction (`getNewConfig`), unique id
generation, source repo lookup (`GetRepoAndID`), destination checkout FS
construction (`libfs.NewFS`), `Chroot`, and the git `Reset` itself. `none`
models success. -/
structure ResetEnv where
  getNewConfigErr : Option GoErr
  makeUniqueIDErr : Option GoErr
  getRepoErr : Option GoErr
  newDstFSErr : Option GoErr
  chrootErr : Option GoErr
  resetErr : Option GoErr
deriving DecidableEq, Repr

/-- `AutogitManager.doReset`: early-return on each setup failure, then
attempt the lease (`canWorkOnRepo`); a denial is a quiet skip returning nil;
once granted, run Chroot and git Reset and, via the deferred call, release
the lease with `workDoneOnRepo`, whose error is reported only when the job
itself succeeded. Returns the destination directory state and the error
`doReset` returns to its caller (`resetWorker`, which discards it). -/
def doResetModel (env : ResetEnv) (c : ClockState) (fs : FS)
    (req : ResetReq) : FS × Option GoErr :=
  match env.getNewConfigErr with
  | some e => (fs, some e)
  | none =>
  match env.makeUniqueIDErr with
  | some e => (fs, some e)
  | none =>
  match env.getRepoErr with
  | some e => (fs, some e)
  | none =>
  match env.newDstFSErr with
  | some e => (fs, some e)
  | none =>
  match canWorkOnRepo c fs req.srcRepo with
  | .error e => (fs, some e)
  | .ok (false, fs1) => (fs1, none)
  | .ok (true, fs1) =>
      let jobErr : Option GoErr :=
        match env.chrootErr with
        | some e => some e
        | none => env.resetErr
      let done := workDoneOnRepo c fs1 req.srcRepo (jobErr.map GoErr.message)
      (done.1, jobErr <|> done.2)

/-- Outcomes of the collaborator calls the synchronous part of `Clone`
makes: `libfs.NewFS` for the destination, lock-file `Create` and `Lock`,
`MkdirAll`, `Chroot`, `ReadDir` (returning the number of entries on
success), CLONING-file creation and `Unlock`. -/
structure CloneEnv where
  newFSErr : Option GoErr
  lockCreateErr : Option GoErr
  lockErr : Option GoErr
  mkdirErr : Option GoErr
  chrootErr : Option GoErr
  readDir : Except GoErr Nat
  cloningErr : Option GoErr
  unlockErr : Option GoErr
deriving Repr

/-- All synchronous setup steps of `Clone` succeed (the CLONING steps only
run when the destination repo directory is empty). -/
def CloneSetupOk (env : CloneEnv) : Prop :=
  env.newFSErr = none ∧ env.lockCreateErr = none ∧ env.lockErr = none ∧
  env.mkdirErr = none ∧ env.chrootErr = none ∧
  ∃ n, env.readDir = Except.ok n ∧
    (n = 0 → env.cloningErr = none ∧ env.unlockErr = none)

/-- `AutogitManager.Clone`: destination FS construction, lock file setup,
destination directory creation, CLONING-file placement when the repo dir is
empty, each returning its error synchronously without queueing; when all
succeed, the request is submitted through `queueReset` exactly as in
`Pull`. -/
def CloneModel (env : CloneEnv) (am : AMState)
    (srcTLF srcRepo branchName dstTLF dstDir : String) (freshCh : Nat)
    (ctxCancelled : Bool) : AMState × Option Nat × Option GoErr :=
  match env.newFSErr with
  | some e => (am, none, some e)
  | none =>
  match env.lockCreateErr with
  | some e => (am, none, some e)
  | none =>
  match env.lockErr with
  | some e => (am, none, some e)
  | none =>
  match env.mkdirErr with
  | some e => (am, none, some e)
  | none =>
  match env.chrootErr with
  | some e => (am, none, some e)
  | none =>
  match env.readDir with
  | .error e => (am, none, some e)
  | .ok n =>
      let cloningStepErr : Option GoErr :=
        if n = 0 then
          match env.cloningErr with
          | some e => some e
          | none => env.unlockErr
        else none
      match cloningStepErr with
      | some e => (am, none, some e)
      | none =>
          queueReset am ⟨srcTLF, srcRepo, branchName, dstTLF, dstDir, freshCh⟩
            ctxCancelled

/-- The control point of one `resetWorker` goroutine with respect to a
dequeued request: between `range` iterations (`idle`), about to call
`markResetReqInProgress` (`trying`), past a successful claim and running
`doReset` (`processing`), or blocked on the occupying request's completion
channel (`waiting`). -/
inductive WorkerPhase where
  | idle
  | trying (req : ResetReq)
  | processing (req : ResetReq)
  | waiting (req : ResetReq) (ch : Nat)
deriving DecidableEq, Repr

/-- The in-process coordination state: the shared manager state and the
phase of each worker goroutine (workers are indexed by `Nat`; only finitely
many ever leave `idle` along any finite execution). The destination store
that `doReset` acts on is independent of this state and is modeled
separately (`doResetModel`). -/
structure SysState where
  am : AMState
  workers : Nat → WorkerPhase

/-- Interleaving semantics of the reset path: submissions run `queueReset`;
a worker dequeues the head of the reset queue, loops through
`markResetReqInProgress` (claiming, or waiting on the returned channel until
it is closed), and after the job clears the claim and closes the request's
channel, exactly as `resetWorker` does. -/
inductive Step : SysState → SysState → Prop where
  | submit (s : SysState) (req : ResetReq) (cancelled : Bool) :
      Step s ⟨(queueReset s.am req cancelled).1, s.workers⟩
  | dequeue (s : SysState) (i : Nat) (req : ResetReq) (rest : List ResetReq) :
      s.workers i = .idle →
      s.am.resetQueue = req :: rest →
      Step s ⟨{ s.am with resetQueue := rest },
              Function.update s.workers i (.trying req)⟩
  | claim (s : SysState) (i : Nat) (req : ResetReq) (am2 : AMState) :
      s.workers i = .trying req →
      markResetReqInProgress s.am req = (am2, none) →
      Step s ⟨am2, Function.update s.workers i (.processing req)⟩
  | waitOn (s : SysState) (i : Nat) (req : ResetReq) (am2 : AMState)
      (ch : Nat) :
      s.workers i = .trying req →
      markResetReqInProgress s.am req = (am2, some ch) →
      Step s ⟨am2, Function.update s.workers i (.waiting req ch)⟩
  | wake (s : SysState) (i : Nat) (req : ResetReq) (ch : Nat) :
      s.workers i = .waiting req ch →
      ch ∈ s.am.closedChans →
      Step s ⟨s.am, Function.update s.workers i (.trying req)⟩
  | finish (s : SysState) (i : Nat) (req : ResetReq) :
      s.workers i = .processing req →
      Step s ⟨{ clearFromInProgress s.am req with
                  closedChans :=
                    req.doneCh :: (clearFromInProgress s.am req).closedChans },
              Function.update s.workers i .idle⟩

/-- A claimed identity is recorded in the in-progress map, bound to the
claiming request. -/
def InProgressOwned (s : SysState) : Prop :=
  ∀ i r, s.workers i = .processing r →
    lookupId s.am.resetsInProgress r.id = some r

/-- No two distinct workers simultaneously hold the in-progress claim for
the same identity. -/
def MutexInv (s : SysState) : Prop :=
  ∀ i j r1 r2, i ≠ j → s.workers i = .processing r1 →
    s.workers j = .processing r2 → r1.id ≠ r2.id

/-- A waiting worker waits on the completion channel of the request that
occupied its identity; the channel either is already closed or still belongs
to the current occupant. -/
def WaitMechInv (s : SysState) : Prop :=
  ∀ i r ch, s.workers i = .waiting r ch →
    ch ∈ s.am.closedChans ∨
    ∃ r2, lookupId s.am.resetsInProgress r.id = some r2 ∧ r2.doneCh = ch

/-- The inductive invariant of the reset worker pool. -/
def SysInv (s : SysState) : Prop :=
  InProgressOwned s ∧ MutexInv s ∧ WaitMechInv s

/-- A system state is initial when no identity is claimed and every worker
is idle (the state right after `NewAutogitManager` spawns the pool). -/
def SysInit (s : SysState) : Prop :=
  s.am.resetsInProgress = [] ∧ ∀ i, s.workers i = WorkerPhase.idle

/-- The reset worker state used by the shutdown model: between iterations
(`idle`), executing a dequeued request (`busy`), or returned from
`resetWorker` after its `range` loop ended (`exited`). -/
inductive WState where
  | idle
  | busy
  | exited
deriving DecidableEq, Repr

/-- The control point of `Shutdown` itself: before it is called, after it
closed both input queues, after `<-am.queueDoneCh` returned, and after
`<-am.deleteDoneCh` returned (`Shutdown` has returned). -/
inductive SPhase where
  | running
  | closedQueues
  | afterQueueDone
  | returned
deriving DecidableEq, Repr

/-- Shutdown-relevant state of a manager with `n` reset workers: both input
queues (length and closed flag), the worker pool, the single delete loop,
the two completion channels, and the phase of `Shutdown`. -/
structure ShutState (n : Nat) where
  resetQueueClosed : Bool
  resetQueueLen : Nat
  workers : Fin n → WState
  queueDoneClosed : Bool
  deleteQueueClosed : Bool
  deleteQueueLen : Nat
  deleteBusy : Bool
  deleteExited : Bool
  deleteDoneClosed : Bool
  phase : SPhase

/-- Interleaving semantics of shutdown. `Shutdown` closes both queues, then
blocks on `queueDoneCh`, then on `deleteDoneCh`. A worker draining a closed
unbounded channel keeps receiving the already-enqueued items and its `range`
loop ends only once the queue is closed and empty; it finishes the item in
hand before anything else (there is no step out of `busy` except completing
the item). `resetLoop` closes `queueDoneCh` only after `wg.Wait()`, i.e.
after every worker has exited; `deleteLoop` closes `deleteDoneCh` when it
exits. Enqueues are only possible while the respective queue is open. -/
inductive ShutStep (n : Nat) : ShutState n → ShutState n → Prop where
  | closeQueues (s : ShutState n) : s.phase = .running →
      ShutStep n s { s with phase := .closedQueues,
                            resetQueueClosed := true,
                            deleteQueueClosed := true }
  | passQueueDone (s : ShutState n) : s.phase = .closedQueues →
      s.queueDoneClosed = true →
      ShutStep n s { s with phase := .afterQueueDone }
  | finishShutdown (s : ShutState n) : s.phase = .afterQueueDone →
      s.deleteDoneClosed = true →
      ShutStep n s { s with phase := .returned }
  | enqueueReset (s : ShutState n) : s.resetQueueClosed = false →
      ShutStep n s { s with resetQueueLen := s.resetQueueLen + 1 }
  | enqueueDelete (s : ShutState n) : s.deleteQueueClosed = false →
      ShutStep n s { s with deleteQueueLen := s.deleteQueueLen + 1 }
  | wDequeue (s : ShutState n) (i : Fin n) : s.workers i = .idle →
      0 < s.resetQueueLen →
      ShutStep n s { s with workers := Function.update s.workers i .busy,
                            resetQueueLen := s.resetQueueLen - 1 }
  | wComplete (s : ShutState n) (i : Fin n) : s.workers i = .busy →
      ShutStep n s { s with workers := Function.update s.workers i .idle }
  | wExit (s : ShutState n) (i : Fin n) : s.workers i = .idle →
      s.resetQueueClosed = true → s.resetQueueLen = 0 →
      ShutStep n s { s with workers := Function.update s.workers i .exited }
  | loopClose (s : ShutState n) : (∀ i, s.workers i = .exited) →
      ShutStep n s { s with queueDoneClosed := true }
  | dDequeue (s : ShutState n) : s.deleteBusy = false →
      s.deleteExited = false → 0 < s.deleteQueueLen →
      ShutStep n s { s with deleteBusy := true,
                            deleteQueueLen := s.deleteQueueLen - 1 }
  | dComplete (s : ShutState n) : s.deleteBusy = true →
      ShutStep n s { s with deleteBusy := false }
  | dExit (s : ShutState n) : s.deleteBusy = false →
      s.deleteExited = false → s.deleteQueueClosed = true →
      s.deleteQueueLen = 0 →
      ShutStep n s { s with deleteExited := true, deleteDoneClosed := true }

/-- The inductive invariant of the shutdown protocol. -/
def ShutInv {n : Nat} (s : ShutState n) : Prop :=
  ((s.phase = .afterQueueDone ∨ s.phase = .returned) →
      s.queueDoneClosed = true) ∧
  (s.phase = .returned → s.deleteDoneClosed = true) ∧
  (s.queueDoneClosed = true → ∀ i, s.workers i = .exited) ∧
  (s.deleteDoneClosed = true →
      s.deleteExited = true ∧ s.deleteBusy = false)

/-- A shutdown state is initial when `Shutdown` has not been called and
neither completion channel is closed. -/
def ShutInit {n : Nat} (s : ShutState n) : Prop :=
  s.phase = .running ∧ s.queueDoneClosed = false ∧
  s.deleteDoneClosed = false

/-- The empty manager state, as built by `NewAutogitManager`. -/
def emptyAM : AMState := ⟨[], [], [], 0, []⟩

/-- A concrete clock for witnesses: offset known to be 5, local clock 100. -/
def clkW : ClockState := ⟨some 5, 100⟩

/-- A concrete request for witnesses and counterexamples. -/
def reqW : ResetReq :=
  ⟨"/keybase/private/u", "repo", "master", "/keybase/private/u", "dst", 7⟩

/-- A `doReset` collaborator environment whose per-job config construction
fails. -/
def envCfgFail : ResetEnv :=
  ⟨some (GoErr.other "config construction failed"), none, none, none, none,
    none⟩

/-- Initial coordination state for the worker-pool witness. -/
def sysW0 : SysState := ⟨emptyAM, fun _ => WorkerPhase.idle⟩

/-- Initial shutdown state for the shutdown witness: one worker, both queues
open and empty, nothing closed. -/
def shutW0 : ShutState 1 :=
  ⟨false, 0, fun _ => WState.idle, false, false, 0, false, false, false,
    SPhase.running⟩

/-- Shutdown witness trace, step 1: `Shutdown` closes both queues. -/
def shutW1 : ShutState 1 :=
  { shutW0 with phase := SPhase.closedQueues, resetQueueClosed := true,
                deleteQueueClosed := true }

/-- Shutdown witness trace, step 2: the single reset worker exits. -/
def shutW2 : ShutState 1 :=
  { shutW1 with workers := Function.update shutW1.workers 0 WState.exited }

/-- Shutdown witness trace, step 3: `resetLoop` closes `queueDoneCh`. -/
def shutW3 : ShutState 1 :=
  { shutW2 with queueDoneClosed := true }

/-- Shutdown witness trace, step 4: `Shutdown` passes `<-queueDoneCh`. -/
def shutW4 : ShutState 1 :=
  { shutW3 with phase := SPhase.afterQueueDone }

/-- Shutdown witness trace, step 5: `deleteLoop` exits and closes
`deleteDoneCh`. -/
def shutW5 : ShutState 1 :=
  { shutW4 with deleteExited := true, deleteDoneClosed := true }

/-- Shutdown witness trace, step 6: `Shutdown` returns. -/
def shutW6 : ShutState 1 :=
  { shutW5 with phase := SPhase.returned }

/-- Facts about `markResetReqInProgress` as an atomic check-and-claim: it
claims (returns nil) exactly when no in-progress entry exists for the
identity, the claim inserts the request and removes it from the queued map,
and when occupied it returns the occupying request completion channel with
the state unchanged. -/
def MarkClaimFacts : Prop :=
  (∀ am req am2,
    markResetReqInProgress am req = (am2, none) →
      lookupId am.resetsInProgress req.id = none ∧
      lookupId am2.resetsInProgress req.id = some req ∧
      lookupId am2.resetsInQueue req.id = none) ∧
  (∀ am req r2,
    lookupId am.resetsInProgress req.id = some r2 →
      markResetReqInProgress am req = (am, some r2.doneCh))

/-- What a coalescing-eligible cancelled submission guarantees: the caller
gets a nil channel and the cancellation error, the request is nevertheless
delivered to the dispatch queue and stays registered in the queued map, and
any later same-identity submission coalesces onto it, receiving the
original request completion channel and no error. -/
def CancelledPushConcl (am : AMState) (req : ResetReq) : Prop :=
  (queueReset am req true).2 = (none, some GoErr.ctxCanceled) ∧
  req ∈ (queueReset am req true).1.resetQueue ∧
  lookupId (queueReset am req true).1.resetsInQueue req.id = some req ∧
  (∀ req2 c2, req2.id = req.id →
    (queueReset (queueReset am req true).1 req2 c2).2 =
      (some req.doneCh, none))

/-- What holds once `Shutdown` has returned: both completion channels are
closed, every reset worker has exited (none is mid-item), and the delete
loop has exited and is not mid-item. -/
def ShutdownConcl {n : Nat} (s : ShutState n) : Prop :=
  s.queueDoneClosed = true ∧ s.deleteDoneClosed = true ∧
  (∀ i, s.workers i = WState.exited) ∧
  s.deleteExited = true ∧ s.deleteBusy = false

theorem listAppendCancelLeft {α : Type} (a : List α) {b c : List α}
    (h : a ++ b = a ++ c) : b = c := by
  induction a with
  | nil => simpa using h
  | cons x xs ih => exact ih (by simpa using h)

theorem stringSuffixNe (p r s1 s2 : String) (h : s1.data ≠ s2.data) :
    p ++ r ++ s1 ≠ p ++ r ++ s2 := by
  intro he
  apply h
  have h2 := congrArg String.data he
  simp only [String.data_append, List.append_assoc] at h2
  exact listAppendCancelLeft _ (listAppendCancelLeft _ h2)

theorem lockName_ne_workingName (r : String) :
    autogitLockName r ≠ autogitWorkingName r :=
  stringSuffixNe _ _ _ _ (by decide)

theorem lockName_ne_lastErrName (r : String) :
    autogitLockName r ≠ autogitLastErrName r :=
  stringSuffixNe _ _ _ _ (by decide)

theorem workingName_ne_lastErrName (r : String) :
    autogitWorkingName r ≠ autogitLastErrName r :=
  stringSuffixNe _ _ _ _ (by decide)

@[simp]
theorem lookupId_eraseId_self {β : Type} (l : List (String × β)) (k : String) :
    lookupId (eraseId l k) k = none := by
  induction l with
  | nil => rfl
  | cons p l ih =>
      by_cases h : p.1 = k <;> simp [eraseId, lookupId, h, ih]

theorem lookupId_eraseId_ne {β : Type} (l : List (String × β)) {ke k : String}
    (h : ke ≠ k) : lookupId (eraseId l ke) k = lookupId l k := by
  induction l with
  | nil => rfl
  | cons p l ih =>
      by_cases hp : p.1 = ke
      · subst hp
        simp [eraseId, lookupId, h, ih]
      · simp only [eraseId, if_neg hp, lookupId]
        by_cases hk : p.1 = k
        · simp [hk]
        · simp [hk, ih]

@[simp]
theorem lookupId_insertId_self {β : Type} (l : List (String × β)) (k : String)
    (v : β) : lookupId (insertId l k v) k = some v := by
  simp [insertId, lookupId]

theorem lookupId_insertId_ne {β : Type} (l : List (String × β)) {ki k : String}
    (h : ki ≠ k) (v : β) : lookupId (insertId l ki v) k = lookupId l k := by
  simp [insertId, lookupId, h, lookupId_eraseId_ne l h]

theorem workDoneFinish_spec (c : ClockState) (fs : FS) (repo : String)
    (workErr : Option String)
    (hW : fsStat fs (autogitWorkingName repo) = none)
    (hL : fsStat fs (autogitLastErrName repo) = none) :
    (workDoneFinish c fs repo workErr).2 = none ∧
    fsStat (workDoneFinish c fs repo workErr).1 (autogitWorkingName repo) =
      none ∧
    (workErr = none →
      fsStat (workDoneFinish c fs repo workErr).1 (autogitLastErrName repo) =
        none) ∧
    (∀ msg, workErr = some msg →
      ∃ f, fsStat (workDoneFinish c fs repo workErr).1
          (autogitLastErrName repo) = some f ∧ f.content = msg) := by
  cases workErr with
  | none => simp [workDoneFinish, hW, hL]
  | some msg =>
      refine ⟨rfl, ?_, by simp, ?_⟩
      · have hne := workingName_ne_lastErrName repo
        simp only [workDoneFinish, fsWrite, fsCreate, fsStat] at *
        rw [lookupId_insertId_self]
        rw [lookupId_insertId_ne _ (fun h => hne h.symm),
          lookupId_insertId_ne _ (fun h => hne h.symm)]
        exact hW
      · intro m hm
        refine ⟨⟨c.now, m⟩, ?_, rfl⟩
        cases hm
        simp only [workDoneFinish, fsWrite, fsCreate, fsStat]
        rw [lookupId_insertId_self]
        rw [lookupId_insertId_self]

theorem workDone_spec (c : ClockState) (fs : FS) (repo : String)
    (workErr : Option String) (fi : FsFile)
    (hw : fsStat fs (autogitWorkingName repo) = some fi) :
    (workDoneOnRepo c fs repo workErr).2 = none ∧
    fsStat (workDoneOnRepo c fs repo workErr).1 (autogitWorkingName repo) =
      none ∧
    (workErr = none →
      fsStat (workDoneOnRepo c fs repo workErr).1 (autogitLastErrName repo) =
        none) ∧
    (∀ msg, workErr = some msg →
      ∃ f, fsStat (workDoneOnRepo c fs repo workErr).1
          (autogitLastErrName repo) = some f ∧ f.content = msg) := by
  have hlw := lockName_ne_workingName repo
  have hwl := workingName_ne_lastErrName repo
  set fsL := fsCreate fs (autogitLockName repo) c.now with hfsL
  have h1 : lookupId fsL (autogitWorkingName repo) = some fi := by
    rw [hfsL]
    simp only [fsCreate]
    rw [lookupId_insertId_ne _ hlw]
    exact hw
  set fs2 := eraseId fsL (autogitWorkingName repo) with hfs2def
  have h2 : fsRemove fsL (autogitWorkingName repo) = .ok fs2 := by
    simp [fsRemove, h1, hfs2def]
  have hW2 : fsStat fs2 (autogitWorkingName repo) = none := by
    simp [fsStat, hfs2def]
  have heq1 : workDoneOnRepo c fs repo workErr =
      (match fsRemove fs2 (autogitLastErrName repo) with
       | Except.error e =>
           if e = GoErr.notExist then workDoneFinish c fs2 repo workErr
           else (fs2, some e)
       | Except.ok fs3 => workDoneFinish c fs3 repo workErr) := by
    simp only [workDoneOnRepo]
    rw [← hfsL, h2]
  cases hl : lookupId fs2 (autogitLastErrName repo) with
  | none =>
      have hrm : fsRemove fs2 (autogitLastErrName repo) =
          .error GoErr.notExist := by
        simp [fsRemove, hl]
      have heq2 : workDoneOnRepo c fs repo workErr =
          workDoneFinish c fs2 repo workErr := by
        rw [heq1, hrm]
        simp
      rw [heq2]
      exact workDoneFinish_spec c fs2 repo workErr hW2 (by simp [fsStat, hl])
  | some f =>
      have hrm : fsRemove fs2 (autogitLastErrName repo) =
          .ok (eraseId fs2 (autogitLastErrName repo)) := by
        simp [fsRemove, hl]
      have heq2 : workDoneOnRepo c fs repo workErr =
          workDoneFinish c (eraseId fs2 (autogitLastErrName repo)) repo
            workErr := by
        rw [heq1, hrm]
      rw [heq2]
      refine workDoneFinish_spec c _ repo workErr ?_ (by simp [fsStat])
      have hne : autogitLastErrName repo ≠ autogitWorkingName repo :=
        fun h => hwl h.symm
      simp only [fsStat] at hW2 ⊢
      rw [lookupId_eraseId_ne _ hne]
      exact hW2

/-- C1: a lease acquire attempt (`canWorkOnRepo`) for a repo at a
destination, holding the lock file, behaves as follows with respect to the
working marker: absent means the marker is created with its timestamp set to
common time and the acquire is granted; present and within `workTimeLimit`
of common time means the acquire is denied without error; present but
expired means the timestamp is refreshed to common time and the acquire is
granted — where common time is the local clock adjusted by the server
offset, falling back to the unadjusted local clock without an offset. -/
theorem autogit_C1_canWorkOnRepo (c : ClockState) (fs : FS) (repo : String) :
    ((c.offset = none → commonTime c = c.now) ∧
     (∀ off, c.offset = some off → commonTime c = c.now - off)) ∧
    (fsStat fs (autogitWorkingName repo) = none →
      ∃ fs2, canWorkOnRepo c fs repo = .ok (true, fs2) ∧
        fsStat fs2 (autogitWorkingName repo) = some ⟨commonTime c, ""⟩) ∧
    (∀ fi, fsStat fs (autogitWorkingName repo) = some fi →
      (fi.modTime + workTimeLimit > commonTime c →
        ∃ fs2, canWorkOnRepo c fs repo = .ok (false, fs2) ∧
          fsStat fs2 (autogitWorkingName repo) = some fi) ∧
      (¬ fi.modTime + workTimeLimit > commonTime c →
        ∃ fs2, canWorkOnRepo c fs repo = .ok (true, fs2) ∧
          fsStat fs2 (autogitWorkingName repo) =
            some { fi with modTime := commonTime c })) := by
  have hlw := lockName_ne_workingName repo
  have hoff : (c.offset = none → commonTime c = c.now) ∧
      (∀ off, c.offset = some off → commonTime c = c.now - off) :=
    ⟨fun h => by simp [commonTime, h],
     fun off h => by simp [commonTime, h]⟩
  set ct := commonTime c with hct
  set fsL := fsCreate fs (autogitLockName repo) c.now with hfsL
  have hstatL : fsStat fsL (autogitWorkingName repo) =
      fsStat fs (autogitWorkingName repo) := by
    rw [hfsL]
    simp only [fsStat, fsCreate]
    exact lookupId_insertId_ne fs hlw _
  refine ⟨hoff, ?_, ?_⟩
  · intro h0
    have hs : fsStat fsL (autogitWorkingName repo) = none := hstatL.trans h0
    have hcht : fsChtimes (fsCreate fsL (autogitWorkingName repo) c.now)
        (autogitWorkingName repo) ct =
        .ok (insertId (fsCreate fsL (autogitWorkingName repo) c.now)
          (autogitWorkingName repo) ⟨ct, ""⟩) := by
      simp [fsChtimes, fsCreate]
    have hrun : canWorkOnRepo c fs repo =
        .ok (true, insertId (fsCreate fsL (autogitWorkingName repo) c.now)
          (autogitWorkingName repo) ⟨ct, ""⟩) := by
      simp only [canWorkOnRepo]
      rw [← hfsL, ← hct]
      simp only [hs]
      rw [hcht]
    exact ⟨_, hrun, by simp [fsStat, fsCreate]⟩
  · intro fi h1
    have hs : fsStat fsL (autogitWorkingName repo) = some fi := hstatL.trans h1
    constructor
    · intro hgt
      refine ⟨fsL, ?_, hs⟩
      simp only [canWorkOnRepo]
      rw [← hfsL, ← hct]
      simp only [hs]
      rw [if_pos hgt]
    · intro hle
      have hcht : fsChtimes fsL (autogitWorkingName repo) ct =
          .ok (insertId fsL (autogitWorkingName repo)
            { fi with modTime := ct }) := by
        have : lookupId fsL (autogitWorkingName repo) = some fi := hs
        simp [fsChtimes, this]
      have hrun : canWorkOnRepo c fs repo =
          .ok (true, insertId fsL (autogitWorkingName repo)
            { fi with modTime := ct }) := by
        simp only [canWorkOnRepo]
        rw [← hfsL, ← hct]
        simp only [hs]
        rw [if_neg hle, hcht]
      exact ⟨_, hrun, by simp [fsStat]⟩

/-- C1 witness: the three acquire outcomes at concrete inputs — a fresh
destination with a known offset of 5 at local time 100 (grant, marker
stamped 95), a live marker (deny without error, marker untouched), and an
expired marker (grant, marker refreshed). -/
theorem autogit_C1_witness :
    (∃ fs2, canWorkOnRepo ⟨some 5, 100⟩ [] "repo" = .ok (true, fs2) ∧
       fsStat fs2 (autogitWorkingName "repo") = some ⟨95, ""⟩) ∧
    (∃ fs2, canWorkOnRepo ⟨none, 50⟩
        [(autogitWorkingName "repo", ⟨0, ""⟩)] "repo" = .ok (false, fs2) ∧
       fsStat fs2 (autogitWorkingName "repo") = some ⟨0, ""⟩) ∧
    (∃ fs2, canWorkOnRepo ⟨none, 9999999999999⟩
        [(autogitWorkingName "repo", ⟨0, ""⟩)] "repo" = .ok (true, fs2) ∧
       fsStat fs2 (autogitWorkingName "repo") = some ⟨9999999999999, ""⟩) := by
  refine ⟨?_, ?_, ?_⟩
  · simpa [commonTime] using
      (autogit_C1_canWorkOnRepo ⟨some 5, 100⟩ [] "repo").2.1 rfl
  · simpa [commonTime] using
      ((autogit_C1_canWorkOnRepo ⟨none, 50⟩
          [(autogitWorkingName "repo", ⟨0, ""⟩)] "repo").2.2 ⟨0, ""⟩
        (by simp [fsStat, lookupId])).1
      (by norm_num [workTimeLimit, commonTime])
  · simpa [commonTime] using
      ((autogit_C1_canWorkOnRepo ⟨none, 9999999999999⟩
          [(autogitWorkingName "repo", ⟨0, ""⟩)] "repo").2.2 ⟨0, ""⟩
        (by simp [fsStat, lookupId])).2
      (by norm_num [workTimeLimit, commonTime])

/-- C6 counterexample: with neither the working marker nor the last-error
marker present (nor the lock file), `workDoneOnRepo` does NOT return nil; it
returns the not-exist error from removing the missing working marker, since
that removal — unlike the last-error removal — does not tolerate
`os.IsNotExist`. -/
theorem autogit_C6_counterexample :
    fsStat ([] : FS) (autogitWorkingName "repo") = none ∧
    fsStat ([] : FS) (autogitLastErrName "repo") = none ∧
    (workDoneOnRepo ⟨none, 0⟩ [] "repo" none).2 = some GoErr.notExist := by
  refine ⟨rfl, rfl, ?_⟩
  have h1 : lookupId (fsCreate ([] : FS) (autogitLockName "repo") 0)
      (autogitWorkingName "repo") = none := by
    simp only [fsCreate]
    rw [lookupId_insertId_ne _ (lockName_ne_workingName "repo")]
    rfl
  have hrm : fsRemove (fsCreate ([] : FS) (autogitLockName "repo") 0)
      (autogitWorkingName "repo") = .error GoErr.notExist := by
    simp [fsRemove, h1]
  simp only [workDoneOnRepo]
  rw [hrm]

/-- C6 amended: a release finding the working marker present returns no
error whatever the job outcome and whether or not a last-error marker or the
lock file exists (their absence is tolerated); but a release finding the
working marker absent fails with the not-exist error instead of treating it
as nothing to clean up. -/
theorem autogit_C6_amendedRelease (c : ClockState) (fs : FS) (repo : String)
    (workErr : Option String) :
    (∀ fi, fsStat fs (autogitWorkingName repo) = some fi →
      (workDoneOnRepo c fs repo workErr).2 = none) ∧
    (fsStat fs (autogitWorkingName repo) = none →
      (workDoneOnRepo c fs repo workErr).2 = some GoErr.notExist) := by
  constructor
  · intro fi h
    exact (workDone_spec c fs repo workErr fi h).1
  · intro h
    have h1 : lookupId (fsCreate fs (autogitLockName repo) c.now)
        (autogitWorkingName repo) = none := by
      simp only [fsCreate]
      rw [lookupId_insertId_ne _ (lockName_ne_workingName repo)]
      exact h
    have hrm : fsRemove (fsCreate fs (autogitLockName repo) c.now)
        (autogitWorkingName repo) = .error GoErr.notExist := by
      simp [fsRemove, h1]
    simp only [workDoneOnRepo]
    rw [hrm]

/-- C6 witness: a release with the working marker present (and no last-error
marker, no lock file) returns nil; a release on an empty destination returns
the not-exist error. -/
theorem autogit_C6_witness :
    (workDoneOnRepo ⟨none, 0⟩ [(autogitWorkingName "r", ⟨3, ""⟩)] "r"
        none).2 = none ∧
    (workDoneOnRepo ⟨none, 0⟩ ([] : FS) "r" none).2 =
      some GoErr.notExist := by
  constructor
  · exact (autogit_C6_amendedRelease ⟨none, 0⟩
        [(autogitWorkingName "r", ⟨3, ""⟩)] "r" none).1 ⟨3, ""⟩
      (by simp [fsStat, lookupId])
  · exact (autogit_C6_amendedRelease ⟨none, 0⟩ [] "r" none).2 rfl

/-- C7: a lease release with the working marker present removes the working
marker and any prior last-error marker, returns no error, creates a
last-error marker containing the failure text exactly when the finished job
failed, and after a successful job leaves no last-error marker. -/
theorem autogit_C7_release (c : ClockState) (fs : FS) (repo : String)
    (workErr : Option String) (fi : FsFile)
    (hw : fsStat fs (autogitWorkingName repo) = some fi) :
    (workDoneOnRepo c fs repo workErr).2 = none ∧
    fsStat (workDoneOnRepo c fs repo workErr).1 (autogitWorkingName repo) =
      none ∧
    (workErr = none →
      fsStat (workDoneOnRepo c fs repo workErr).1 (autogitLastErrName repo) =
        none) ∧
    (∀ msg, workErr = some msg →
      ∃ f, fsStat (workDoneOnRepo c fs repo workErr).1
          (autogitLastErrName repo) = some f ∧ f.content = msg) :=
  workDone_spec c fs repo workErr fi hw

/-- C7 witness: releasing after a failed job at a destination holding a
working marker and a stale last-error marker — no error, working marker
gone, and the last-error marker now holds the new failure text. -/
theorem autogit_C7_witness :
    (workDoneOnRepo ⟨none, 0⟩
        [(autogitWorkingName "r", ⟨10, ""⟩),
         (autogitLastErrName "r", ⟨5, "old"⟩)] "r" (some "boom")).2 = none ∧
    fsStat (workDoneOnRepo ⟨none, 0⟩
        [(autogitWorkingName "r", ⟨10, ""⟩),
         (autogitLastErrName "r", ⟨5, "old"⟩)] "r" (some "boom")).1
      (autogitWorkingName "r") = none ∧
    (some "boom" = none →
      fsStat (workDoneOnRepo ⟨none, 0⟩
          [(autogitWorkingName "r", ⟨10, ""⟩),
           (autogitLastErrName "r", ⟨5, "old"⟩)] "r" (some "boom")).1
        (autogitLastErrName "r") = none) ∧
    (∀ msg, (some "boom" : Option String) = some msg →
      ∃ f, fsStat (workDoneOnRepo ⟨none, 0⟩
          [(autogitWorkingName "r", ⟨10, ""⟩),
           (autogitLastErrName "r", ⟨5, "old"⟩)] "r" (some "boom")).1
          (autogitLastErrName "r") = some f ∧ f.content = msg) :=
  autogit_C7_release ⟨none, 0⟩
    [(autogitWorkingName "r", ⟨10, ""⟩), (autogitLastErrName "r", ⟨5, "old"⟩)]
    "r" (some "boom") ⟨10, ""⟩ (by simp [fsStat, lookupId])

theorem queueReset_no_error (am : AMState) (req : ResetReq) :
    (queueReset am req false).2.2 = none := by
  cases h : lookupId am.resetsInQueue req.id <;> simp [queueReset, h]

/-- C3: a submission whose identity is already in the queued map returns the
registered request completion channel and creates no new state — the state
is returned unchanged, so nothing is enqueued and the pending counter stays;
only a first registration increments the counter, registers the request and
pushes it onto the queue. -/
theorem autogit_C3_coalesce (am : AMState) (req : ResetReq)
    (cancelled : Bool) :
    (∀ r0, lookupId am.resetsInQueue req.id = some r0 →
      queueReset am req cancelled = (am, some r0.doneCh, none)) ∧
    (lookupId am.resetsInQueue req.id = none →
      (queueReset am req false).1.resetsWGCount = am.resetsWGCount + 1 ∧
      lookupId (queueReset am req false).1.resetsInQueue req.id = some req ∧
      (queueReset am req false).1.resetQueue = am.resetQueue ++ [req] ∧
      (queueReset am req false).2 = (some req.doneCh, none)) := by
  constructor
  · intro r0 h
    simp [queueReset, h]
  · intro h
    simp [queueReset, h]

/-- C3 witness: a first submission registers and enqueues with the counter
incremented; a second submission with the same identity (different branch
and a fresh channel — branch is not part of the identity) returns the first
request channel 7 and leaves the state untouched. -/
theorem autogit_C3_witness :
    queueReset (queueReset emptyAM reqW false).1
      ⟨"/keybase/private/u", "repo", "dev", "/keybase/private/u", "dst", 8⟩
      true = ((queueReset emptyAM reqW false).1, some 7, none) ∧
    ((queueReset emptyAM reqW false).1.resetsWGCount =
        emptyAM.resetsWGCount + 1 ∧
      lookupId (queueReset emptyAM reqW false).1.resetsInQueue reqW.id =
        some reqW ∧
      (queueReset emptyAM reqW false).1.resetQueue =
        emptyAM.resetQueue ++ [reqW] ∧
      (queueReset emptyAM reqW false).2 = (some reqW.doneCh, none)) := by
  constructor
  · exact (autogit_C3_coalesce (queueReset emptyAM reqW false).1
        ⟨"/keybase/private/u", "repo", "dev", "/keybase/private/u", "dst", 8⟩
        true).1 reqW (by simp [queueReset, emptyAM, reqW, ResetReq.id,
          lookupId])
  · exact (autogit_C3_coalesce emptyAM reqW false).2 rfl

theorem cancelledPush_spec (am : AMState) (req : ResetReq)
    (h : lookupId am.resetsInQueue req.id = none) :
    CancelledPushConcl am req := by
  refine ⟨by simp [queueReset, h], by simp [queueReset, h],
    by simp [queueReset, h], ?_⟩
  intro req2 c2 hid
  set amX := (queueReset am req true).1 with hamX
  have h2 : lookupId amX.resetsInQueue req2.id = some req := by
    rw [hid, hamX]
    simp [queueReset, h]
  simp [queueReset, h2]

/-- C4: a newly registered submission whose context is cancelled during the
queue push still delivers the request to the dispatch queue, keeps the
registration in the queued map, and reports the cancellation only to the
original caller — later same-identity submissions get the promised channel
and no error. -/
theorem autogit_C4_cancelledPushDelivers (am : AMState) (req : ResetReq)
    (h : lookupId am.resetsInQueue req.id = none) :
    CancelledPushConcl am req :=
  cancelledPush_spec am req h

/-- C4 witness: the cancelled-push guarantees at a concrete fresh manager
state and request. -/
theorem autogit_C4_witness : CancelledPushConcl emptyAM reqW :=
  autogit_C4_cancelledPushDelivers emptyAM reqW rfl

theorem deleteLoopRun_closed_mono {W : Type}
    (doDel : W → DeleteReq → W × Option String) (reqs : List DeleteReq) :
    ∀ (w : W) (closed : List Nat) (x : Nat), x ∈ closed →
      x ∈ (deleteLoopRun doDel w reqs closed).2 := by
  induction reqs with
  | nil =>
      intro w closed x hx
      simpa [deleteLoopRun] using hx
  | cons r rest ih =>
      intro w closed x hx
      simp only [deleteLoopRun]
      exact ih _ _ _ (List.mem_cons_of_mem _ hx)

theorem deleteLoopRun_doneCh_mem {W : Type}
    (doDel : W → DeleteReq → W × Option String) (dreq : DeleteReq) :
    ∀ (reqs : List DeleteReq), dreq ∈ reqs →
      ∀ (w : W) (closed : List Nat),
        dreq.doneCh ∈ (deleteLoopRun doDel w reqs closed).2 := by
  intro reqs
  induction reqs with
  | nil => intro h; cases h
  | cons r rest ih =>
      intro hmem w closed
      rcases List.mem_cons.mp hmem with h | h
      · subst h
        simp only [deleteLoopRun]
        exact deleteLoopRun_closed_mono doDel rest _ _ _
          (List.mem_cons_self _ _)
      · simp only [deleteLoopRun]
        exact ih h _ _

/-- C5: after a dequeued reset job executes — whatever its outcome,
including an error, which the worker layer discards — the worker clears the
in-progress entry, decrements the pending counter and closes the request
completion channel; the resulting manager state is identical to the one a
successful job would produce. Likewise the delete loop closes every
dequeued delete request channel regardless of the job outcomes. -/
theorem autogit_C5_workerAlwaysSignals {W : Type}
    (doRes : W → ResetReq → W × Option String) (am : AMState) (w : W)
    (req : ResetReq) (doDel : W → DeleteReq → W × Option String) (w2 : W)
    (reqs : List DeleteReq) (closed : List Nat) (dreq : DeleteReq) :
    (lookupId (resetWorkerRun doRes am w req).1.resetsInProgress req.id =
        none ∧
      (resetWorkerRun doRes am w req).1.resetsWGCount =
        am.resetsWGCount - 1 ∧
      req.doneCh ∈ (resetWorkerRun doRes am w req).1.closedChans ∧
      (resetWorkerRun doRes am w req).1 =
        (resetWorkerRun (fun wv r => ((doRes wv r).1, none)) am w req).1) ∧
    (dreq ∈ reqs → dreq.doneCh ∈ (deleteLoopRun doDel w2 reqs closed).2) := by
  constructor
  · refine ⟨?_, rfl, ?_, rfl⟩
    · simp [resetWorkerRun, clearFromInProgress]
    · simp [resetWorkerRun]
  · intro hmem
    exact deleteLoopRun_doneCh_mem doDel dreq reqs hmem w2 closed

/-- C5 witness: a failing reset job and a failing delete job at concrete
inputs — the identity is freed, the counter drops, and both completion
channels are closed all the same. -/
theorem autogit_C5_witness :
    (lookupId (resetWorkerRun (fun _ _ => ((), some "job failed"))
          ⟨[], insertId [] reqW.id reqW, [], 1, []⟩ () reqW).1.resetsInProgress
        reqW.id = none ∧
      (resetWorkerRun (fun _ _ => ((), some "job failed"))
          ⟨[], insertId [] reqW.id reqW, [], 1, []⟩ ()
          reqW).1.resetsWGCount =
        (⟨[], insertId [] reqW.id reqW, [], 1, []⟩ : AMState).resetsWGCount
          - 1 ∧
      reqW.doneCh ∈ (resetWorkerRun (fun _ _ => ((), some "job failed"))
          ⟨[], insertId [] reqW.id reqW, [], 1, []⟩ () reqW).1.closedChans ∧
      (resetWorkerRun (fun _ _ => ((), some "job failed"))
          ⟨[], insertId [] reqW.id reqW, [], 1, []⟩ () reqW).1 =
        (resetWorkerRun
            (fun wv r => (((fun _ _ => ((), some "job failed")) wv r).1,
              (none : Option String)))
            ⟨[], insertId [] reqW.id reqW, [], 1, []⟩ () reqW).1) ∧
    ((⟨"t", "d", "r", "b", 9⟩ : DeleteReq) ∈
        [(⟨"t", "d", "r", "b", 9⟩ : DeleteReq)] →
      (⟨"t", "d", "r", "b", 9⟩ : DeleteReq).doneCh ∈
        (deleteLoopRun (fun _ _ => ((), some "delete failed")) ()
          [⟨"t", "d", "r", "b", 9⟩] []).2) :=
  autogit_C5_workerAlwaysSignals (fun _ _ => ((), some "job failed"))
    ⟨[], insertId [] reqW.id reqW, [], 1, []⟩ () reqW
    (fun _ _ => ((), some "delete failed")) () [⟨"t", "d", "r", "b", 9⟩] []
    ⟨"t", "d", "r", "b", 9⟩

theorem cloneModel_setupOk (env : CloneEnv) (hok : CloneSetupOk env)
    (am : AMState) (srcTLF srcRepo branchName dstTLF dstDir : String)
    (ch : Nat) (cancelled : Bool) :
    CloneModel env am srcTLF srcRepo branchName dstTLF dstDir ch cancelled =
      queueReset am ⟨srcTLF, srcRepo, branchName, dstTLF, dstDir, ch⟩
        cancelled := by
  obtain ⟨h1, h2, h3, h4, h5, n, h6, h7⟩ := hok
  simp only [CloneModel, h1, h2, h3, h4, h5, h6]
  by_cases hn : n = 0
  · obtain ⟨hc, hu⟩ := h7 hn
    subst hn
    simp [hc, hu]
  · simp [hn]

/-- C8 counterexample: a Pull submission is accepted and queued with no
synchronous error even though the per-job workspace/config construction of
its `doReset` fails — that setup error is not surfaced to the submitting
call (the worker later discards it), so setup errors are not in general
surfaced synchronously with the job never queued. -/
theorem autogit_C8_counterexample :
    (Pull emptyAM "/keybase/private/u" "repo" "master" "/keybase/private/u"
        "dst" 7 false).2 = (some 7, none) ∧
    reqW ∈ (Pull emptyAM "/keybase/private/u" "repo" "master"
        "/keybase/private/u" "dst" 7 false).1.resetQueue ∧
    (doResetModel envCfgFail clkW [] reqW).2 =
      some (GoErr.other "config construction failed") := by
  refine ⟨?_, ?_, rfl⟩
  · simp [Pull, queueReset, emptyAM, lookupId]
  · simp [Pull, queueReset, emptyAM, lookupId, reqW]

/-- C8 amended: setup failures in the synchronous part of `Clone`
(destination workspace construction, lock setup, directory creation,
CLONING-file placement) are surfaced synchronously with the manager state
unchanged — the job is never queued; when every synchronous setup step
succeeds, `Clone` reduces to the queue submission, and an uncancelled
accepted submission returns no error. Per-job workspace/config construction
failures inside the asynchronous `doReset`, however, happen after queueing
and are not surfaced to the submitter (see the counterexample). -/
theorem autogit_C8_amendedSetup (env : CloneEnv) (am : AMState)
    (srcTLF srcRepo branchName dstTLF dstDir : String) (ch : Nat)
    (cancelled : Bool) :
    (¬ CloneSetupOk env →
      ∃ e, CloneModel env am srcTLF srcRepo branchName dstTLF dstDir ch
          cancelled = (am, none, some e)) ∧
    (CloneSetupOk env →
      CloneModel env am srcTLF srcRepo branchName dstTLF dstDir ch
          cancelled =
        queueReset am ⟨srcTLF, srcRepo, branchName, dstTLF, dstDir, ch⟩
          cancelled) ∧
    (CloneSetupOk env → cancelled = false →
      (CloneModel env am srcTLF srcRepo branchName dstTLF dstDir ch
          cancelled).2.2 = none) := by
  refine ⟨?_, fun hok => cloneModel_setupOk env hok am srcTLF srcRepo
    branchName dstTLF dstDir ch cancelled, ?_⟩
  · intro hnot
    cases h1 : env.newFSErr with
    | some e => exact ⟨e, by simp [CloneModel, h1]⟩
    | none =>
    cases h2 : env.lockCreateErr with
    | some e => exact ⟨e, by simp [CloneModel, h1, h2]⟩
    | none =>
    cases h3 : env.lockErr with
    | some e => exact ⟨e, by simp [CloneModel, h1, h2, h3]⟩
    | none =>
    cases h4 : env.mkdirErr with
    | some e => exact ⟨e, by simp [CloneModel, h1, h2, h3, h4]⟩
    | none =>
    cases h5 : env.chrootErr with
    | some e => exact ⟨e, by simp [CloneModel, h1, h2, h3, h4, h5]⟩
    | none =>
    cases h6 : env.readDir with
    | error e => exact ⟨e, by simp [CloneModel, h1, h2, h3, h4, h5, h6]⟩
    | ok n =>
    by_cases hn : n = 0
    · cases hc : env.cloningErr with
      | some e =>
          refine ⟨e, ?_⟩
          subst hn
          simp [CloneModel, h1, h2, h3, h4, h5, h6, hc]
      | none =>
      cases hu : env.unlockErr with
      | some e =>
          refine ⟨e, ?_⟩
          subst hn
          simp [CloneModel, h1, h2, h3, h4, h5, h6, hc, hu]
      | none =>
          exact absurd ⟨h1, h2, h3, h4, h5, n, h6, fun _ => ⟨hc, hu⟩⟩ hnot
    · exact absurd ⟨h1, h2, h3, h4, h5, n, h6, fun h => absurd h hn⟩ hnot
  · intro hok hc
    rw [cloneModel_setupOk env hok am srcTLF srcRepo branchName dstTLF
      dstDir ch cancelled, hc]
    exact queueReset_no_error am _

/-- C8 witness: a Clone whose destination FS construction fails returns that
error with nothing queued; a Clone with all setup steps succeeding reduces
to the queue submission and returns no error. -/
theorem autogit_C8_witness :
    (∃ e, CloneModel ⟨some GoErr.notExist, none, none, none, none,
        Except.ok 0, none, none⟩ emptyAM "/keybase/private/u" "repo"
        "master" "/keybase/private/u" "dst" 7 false =
        (emptyAM, none, some e)) ∧
    CloneModel ⟨none, none, none, none, none, Except.ok 1, none, none⟩
        emptyAM "/keybase/private/u" "repo" "master" "/keybase/private/u"
        "dst" 7 false =
      queueReset emptyAM reqW false ∧
    (CloneModel ⟨none, none, none, none, none, Except.ok 1, none, none⟩
        emptyAM "/keybase/private/u" "repo" "master" "/keybase/private/u"
        "dst" 7 false).2.2 = none := by
  refine ⟨?_, ?_, ?_⟩
  · exact (autogit_C8_amendedSetup ⟨some GoErr.notExist, none, none, none,
        none, Except.ok 0, none, none⟩ emptyAM "/keybase/private/u" "repo"
        "master" "/keybase/private/u" "dst" 7 false).1
      (by simp [CloneSetupOk])
  · exact (autogit_C8_amendedSetup ⟨none, none, none, none, none,
        Except.ok 1, none, none⟩ emptyAM "/keybase/private/u" "repo"
        "master" "/keybase/private/u" "dst" 7 false).2.1
      ⟨rfl, rfl, rfl, rfl, rfl, 1, rfl, by simp⟩
  · exact (autogit_C8_amendedSetup ⟨none, none, none, none, none,
        Except.ok 1, none, none⟩ emptyAM "/keybase/private/u" "repo"
        "master" "/keybase/private/u" "dst" 7 false).2.2
      ⟨rfl, rfl, rfl, rfl, rfl, 1, rfl, by simp⟩ rfl

/-- C10: a Clone or Pull submission that registers a new identity but is
cancelled during the queue push returns a nil completion channel together
with the cancellation error — the caller gets no handle — while the job is
still queued and executed; a completion channel for it is obtainable by a
later same-identity submission, which coalesces onto the registered request
and receives its channel. -/
theorem autogit_C10_cancelledCallerNoHandle (am : AMState)
    (srcTLF srcRepo branchName dstTLF dstDir : String) (ch : Nat)
    (h : lookupId am.resetsInQueue
      (ResetReq.id ⟨srcTLF, srcRepo, branchName, dstTLF, dstDir, ch⟩) =
        none) :
    (Pull am srcTLF srcRepo branchName dstTLF dstDir ch true).2.1 = none ∧
    (Pull am srcTLF srcRepo branchName dstTLF dstDir ch true).2.2 =
      some GoErr.ctxCanceled ∧
    (⟨srcTLF, srcRepo, branchName, dstTLF, dstDir, ch⟩ : ResetReq) ∈
      (Pull am srcTLF srcRepo branchName dstTLF dstDir ch true).1.resetQueue ∧
    (∀ env, CloneSetupOk env →
      CloneModel env am srcTLF srcRepo branchName dstTLF dstDir ch true =
        Pull am srcTLF srcRepo branchName dstTLF dstDir ch true) ∧
    (∀ req2 c2,
      req2.id = ResetReq.id ⟨srcTLF, srcRepo, branchName, dstTLF, dstDir, ch⟩ →
      (queueReset (Pull am srcTLF srcRepo branchName dstTLF dstDir ch
          true).1 req2 c2).2 = (some ch, none)) := by
  obtain ⟨h1, h2, h3, h4⟩ := cancelledPush_spec am
    ⟨srcTLF, srcRepo, branchName, dstTLF, dstDir, ch⟩ h
  refine ⟨?_, ?_, h2, ?_, ?_⟩
  · show (queueReset am ⟨srcTLF, srcRepo, branchName, dstTLF, dstDir, ch⟩
        true).2.1 = none
    rw [h1]
  · show (queueReset am ⟨srcTLF, srcRepo, branchName, dstTLF, dstDir, ch⟩
        true).2.2 = some GoErr.ctxCanceled
    rw [h1]
  · intro env hok
    exact cloneModel_setupOk env hok am srcTLF srcRepo branchName dstTLF
      dstDir ch true
  · intro req2 c2 hid
    exact h4 req2 c2 hid

/-- C10 witness: the cancelled-caller guarantees at a concrete fresh
manager state — nil handle plus cancellation error, request still queued,
and later same-identity submissions coalesce onto it. -/
theorem autogit_C10_witness :
    (Pull emptyAM "/keybase/private/u" "repo" "master" "/keybase/private/u"
        "dst" 7 true).2.1 = none ∧
    (Pull emptyAM "/keybase/private/u" "repo" "master" "/keybase/private/u"
        "dst" 7 true).2.2 = some GoErr.ctxCanceled ∧
    (⟨"/keybase/private/u", "repo", "master", "/keybase/private/u", "dst",
        7⟩ : ResetReq) ∈
      (Pull emptyAM "/keybase/private/u" "repo" "master" "/keybase/private/u"
        "dst" 7 true).1.resetQueue ∧
    (∀ env, CloneSetupOk env →
      CloneModel env emptyAM "/keybase/private/u" "repo" "master"
          "/keybase/private/u" "dst" 7 true =
        Pull emptyAM "/keybase/private/u" "repo" "master" "/keybase/private/u"
          "dst" 7 true) ∧
    (∀ req2 c2,
      req2.id = ResetReq.id ⟨"/keybase/private/u", "repo", "master",
        "/keybase/private/u", "dst", 7⟩ →
      (queueReset (Pull emptyAM "/keybase/private/u" "repo" "master"
          "/keybase/private/u" "dst" 7 true).1 req2 c2).2 =
        (some 7, none)) :=
  autogit_C10_cancelledCallerNoHandle emptyAM "/keybase/private/u" "repo"
    "master" "/keybase/private/u" "dst" 7 rfl

theorem queueReset_inProgress (am : AMState) (req : ResetReq)
    (cancelled : Bool) :
    (queueReset am req cancelled).1.resetsInProgress = am.resetsInProgress := by
  cases h : lookupId am.resetsInQueue req.id <;> cases cancelled <;>
    simp [queueReset, h]

theorem queueReset_closed (am : AMState) (req : ResetReq) (cancelled : Bool) :
    (queueReset am req cancelled).1.closedChans = am.closedChans := by
  cases h : lookupId am.resetsInQueue req.id <;> cases cancelled <;>
    simp [queueReset, h]

theorem mark_claim_char (am : AMState) (req : ResetReq) (am2 : AMState)
    (h : markResetReqInProgress am req = (am2, none)) :
    lookupId am.resetsInProgress req.id = none ∧
    am2.resetsInProgress = insertId am.resetsInProgress req.id req ∧
    am2.resetsInQueue = eraseId am.resetsInQueue req.id ∧
    am2.closedChans = am.closedChans := by
  cases hl : lookupId am.resetsInProgress req.id with
  | some r =>
      rw [markResetReqInProgress] at h
      rw [hl] at h
      cases h
  | none =>
      rw [markResetReqInProgress] at h
      rw [hl] at h
      injection h with h1 h2
      subst h1
      exact ⟨rfl, rfl, rfl, rfl⟩

theorem mark_wait_char (am : AMState) (req : ResetReq) (am2 : AMState)
    (ch : Nat) (h : markResetReqInProgress am req = (am2, some ch)) :
    am2 = am ∧
    ∃ r2, lookupId am.resetsInProgress req.id = some r2 ∧ r2.doneCh = ch := by
  cases hl : lookupId am.resetsInProgress req.id with
  | none =>
      rw [markResetReqInProgress] at h
      rw [hl] at h
      cases h
  | some r =>
      rw [markResetReqInProgress] at h
      rw [hl] at h
      injection h with h1 h2
      exact ⟨h1.symm, r, rfl, Option.some.inj h2⟩

theorem sysInv_step {s t : SysState} (hinv : SysInv s) (hstep : Step s t) :
    SysInv t := by
  obtain ⟨hOwn, hMut, hWait⟩ := hinv
  cases hstep with
  | submit req cancelled =>
      refine ⟨?_, ?_, ?_⟩
      · intro j r hj
        show lookupId (queueReset s.am req cancelled).1.resetsInProgress
          r.id = some r
        rw [queueReset_inProgress]
        exact hOwn j r hj
      · exact hMut
      · intro j r ch hj
        show ch ∈ (queueReset s.am req cancelled).1.closedChans ∨
          ∃ r2, lookupId (queueReset s.am req cancelled).1.resetsInProgress
            r.id = some r2 ∧ r2.doneCh = ch
        rw [queueReset_closed, queueReset_inProgress]
        exact hWait j r ch hj
  | dequeue i req rest hidle hq =>
      refine ⟨?_, ?_, ?_⟩
      · intro j r hj
        rcases eq_or_ne j i with rfl | hne
        · simp only [Function.update_same] at hj
          cases hj
        · simp only [Function.update_noteq hne] at hj
          exact hOwn j r hj
      · intro j k r1 r2 hjk hj hk
        rcases eq_or_ne j i with rfl | hnej
        · simp only [Function.update_same] at hj
          cases hj
        · rcases eq_or_ne k i with rfl | hnek
          · simp only [Function.update_same] at hk
            cases hk
          · simp only [Function.update_noteq hnej] at hj
            simp only [Function.update_noteq hnek] at hk
            exact hMut j k r1 r2 hjk hj hk
      · intro j r ch hj
        rcases eq_or_ne j i with rfl | hne
        · simp only [Function.update_same] at hj
          cases hj
        · simp only [Function.update_noteq hne] at hj
          exact hWait j r ch hj
  | claim i req am2 htry hmark =>
      obtain ⟨hnone, hprog, hqueue, hclosed⟩ :=
        mark_claim_char s.am req am2 hmark
      refine ⟨?_, ?_, ?_⟩
      · intro j r hj
        show lookupId am2.resetsInProgress r.id = some r
        rcases eq_or_ne j i with rfl | hne
        · simp only [Function.update_same] at hj
          injection hj with h
          subst h
          rw [hprog]
          exact lookupId_insertId_self _ _ _
        · simp only [Function.update_noteq hne] at hj
          have hold := hOwn j r hj
          have hne2 : req.id ≠ r.id := by
            intro hEq
            rw [hEq] at hnone
            rw [hnone] at hold
            cases hold
          rw [hprog, lookupId_insertId_ne _ hne2]
          exact hold
      · intro j k r1 r2 hjk hj hk
        rcases eq_or_ne j i with rfl | hnej
        · simp only [Function.update_same] at hj
          injection hj with h
          subst h
          simp only [Function.update_noteq (Ne.symm hjk)] at hk
          have hold := hOwn k r2 hk
          intro hEq
          rw [hEq] at hnone
          rw [hnone] at hold
          cases hold
        · simp only [Function.update_noteq hnej] at hj
          rcases eq_or_ne k i with rfl | hnek
          · simp only [Function.update_same] at hk
            injection hk with h
            subst h
            have hold := hOwn j r1 hj
            intro hEq
            rw [← hEq] at hnone
            rw [hnone] at hold
            cases hold
          · simp only [Function.update_noteq hnek] at hk
            exact hMut j k r1 r2 hjk hj hk
      · intro j r ch hj
        show ch ∈ am2.closedChans ∨
          ∃ r2, lookupId am2.resetsInProgress r.id = some r2 ∧
            r2.doneCh = ch
        rcases eq_or_ne j i with rfl | hne
        · simp only [Function.update_same] at hj
          cases hj
        · simp only [Function.update_noteq hne] at hj
          rcases hWait j r ch hj with hcl | ⟨r2, hr2, hch⟩
          · left
            rw [hclosed]
            exact hcl
          · right
            by_cases hEq : req.id = r.id
            · rw [← hEq] at hr2
              rw [hnone] at hr2
              cases hr2
            · refine ⟨r2, ?_, hch⟩
              rw [hprog, lookupId_insertId_ne _ hEq]
              exact hr2
  | waitOn i req am2 ch htry hmark =>
      obtain ⟨ham2, r2, hr2, hch⟩ := mark_wait_char s.am req am2 ch hmark
      subst ham2
      refine ⟨?_, ?_, ?_⟩
      · intro j r hj
        rcases eq_or_ne j i with rfl | hne
        · simp only [Function.update_same] at hj
          cases hj
        · simp only [Function.update_noteq hne] at hj
          exact hOwn j r hj
      · intro j k r1 rB hjk hj hk
        rcases eq_or_ne j i with rfl | hnej
        · simp only [Function.update_same] at hj
          cases hj
        · rcases eq_or_ne k i with rfl | hnek
          · simp only [Function.update_same] at hk
            cases hk
          · simp only [Function.update_noteq hnej] at hj
            simp only [Function.update_noteq hnek] at hk
            exact hMut j k r1 rB hjk hj hk
      · intro j r chB hj
        rcases eq_or_ne j i with rfl | hne
        · simp only [Function.update_same] at hj
          injection hj with h1 h2
          subst h1
          subst h2
          right
          exact ⟨r2, hr2, hch⟩
        · simp only [Function.update_noteq hne] at hj
          exact hWait j r chB hj
  | wake i req ch hw hcl =>
      refine ⟨?_, ?_, ?_⟩
      · intro j r hj
        rcases eq_or_ne j i with rfl | hne
        · simp only [Function.update_same] at hj
          cases hj
        · simp only [Function.update_noteq hne] at hj
          exact hOwn j r hj
      · intro j k r1 rB hjk hj hk
        rcases eq_or_ne j i with rfl | hnej
        · simp only [Function.update_same] at hj
          cases hj
        · rcases eq_or_ne k i with rfl | hnek
          · simp only [Function.update_same] at hk
            cases hk
          · simp only [Function.update_noteq hnej] at hj
            simp only [Function.update_noteq hnek] at hk
            exact hMut j k r1 rB hjk hj hk
      · intro j r chB hj
        rcases eq_or_ne j i with rfl | hne
        · simp only [Function.update_same] at hj
          cases hj
        · simp only [Function.update_noteq hne] at hj
          exact hWait j r chB hj
  | finish i req hproc =>
      have hself := hOwn i req hproc
      refine ⟨?_, ?_, ?_⟩
      · intro j r hj
        rcases eq_or_ne j i with rfl | hne
        · simp only [Function.update_same] at hj
          cases hj
        · simp only [Function.update_noteq hne] at hj
          have hold := hOwn j r hj
          have hneid : req.id ≠ r.id :=
            hMut i j req r (Ne.symm hne) hproc hj
          show lookupId (eraseId s.am.resetsInProgress req.id) r.id = some r
          rw [lookupId_eraseId_ne _ hneid]
          exact hold
      · intro j k r1 rB hjk hj hk
        rcases eq_or_ne j i with rfl | hnej
        · simp only [Function.update_same] at hj
          cases hj
        · rcases eq_or_ne k i with rfl | hnek
          · simp only [Function.update_same] at hk
            cases hk
          · simp only [Function.update_noteq hnej] at hj
            simp only [Function.update_noteq hnek] at hk
            exact hMut j k r1 rB hjk hj hk
      · intro j r chB hj
        show chB ∈ req.doneCh :: s.am.closedChans ∨
          ∃ r2, lookupId (eraseId s.am.resetsInProgress req.id) r.id =
            some r2 ∧ r2.doneCh = chB
        rcases eq_or_ne j i with rfl | hne
        · simp only [Function.update_same] at hj
          cases hj
        · simp only [Function.update_noteq hne] at hj
          rcases hWait j r chB hj with hclB | ⟨rB, hrB, hchB⟩
          · left
            exact List.mem_cons_of_mem _ hclB
          · by_cases hEq : r.id = req.id
            · rw [hEq, hself] at hrB
              injection hrB with h
              subst h
              left
              rw [← hchB]
              exact List.mem_cons_self _ _
            · right
              refine ⟨rB, ?_, hchB⟩
              rw [lookupId_eraseId_ne _ (fun hx => hEq hx.symm)]
              exact hrB

theorem sysInv_reachable {s0 s : SysState} (h0 : SysInit s0)
    (hr : Relation.ReflTransGen Step s0 s) : SysInv s := by
  induction hr with
  | refl =>
      refine ⟨?_, ?_, ?_⟩
      · intro i r hi
        rw [h0.2 i] at hi
        cases hi
      · intro i j r1 r2 hij hi hj
        rw [h0.2 i] at hi
        cases hi
      · intro i r ch hi
        rw [h0.2 i] at hi
        cases hi
  | tail hab hbc ih => exact sysInv_step ih hbc

theorem markClaimFacts_holds : MarkClaimFacts := by
  constructor
  · intro am req am2 h
    obtain ⟨hnone, hprog, hqueue, _⟩ := mark_claim_char am req am2 h
    refine ⟨hnone, ?_, ?_⟩
    · rw [hprog]
      exact lookupId_insertId_self _ _ _
    · rw [hqueue]
      exact lookupId_eraseId_self _ _
  · intro am req r2 h
    rw [markResetReqInProgress, h]

/-- C2: in every execution of the worker pool from an initial state, no two
distinct workers simultaneously hold the in-progress claim for the same
identity; a worker that finds the identity occupied receives the occupying
request's completion channel and waits on it (re-checking in a loop once it
closes); and `markResetReqInProgress` atomically claims — inserting into the
in-progress map and removing from the queued map — exactly when no
in-progress entry exists, otherwise returning the occupant's channel. -/
theorem autogit_C2_inProgressMutex (s0 s : SysState) (h0 : SysInit s0)
    (hr : Relation.ReflTransGen Step s0 s) :
    MutexInv s ∧ WaitMechInv s ∧ MarkClaimFacts :=
  ⟨(sysInv_reachable h0 hr).2.1, (sysInv_reachable h0 hr).2.2,
    markClaimFacts_holds⟩

/-- C2 witness: the guarantees at the concrete initial pool state. -/
theorem autogit_C2_witness :
    MutexInv sysW0 ∧ WaitMechInv sysW0 ∧ MarkClaimFacts :=
  autogit_C2_inProgressMutex sysW0 sysW0 ⟨rfl, fun _ => rfl⟩
    Relation.ReflTransGen.refl

theorem shutInv_step {n : Nat} {s t : ShutState n} (hinv : ShutInv s)
    (hstep : ShutStep n s t) : ShutInv t := by
  obtain ⟨h1, h2, h3, h4⟩ := hinv
  cases hstep with
  | closeQueues hph =>
      refine ⟨?_, ?_, fun h => h3 h, fun h => h4 h⟩
      · intro h
        rcases h with h | h <;> cases h
      · intro h
        cases h
  | passQueueDone hph hqd =>
      refine ⟨fun _ => hqd, ?_, fun h => h3 h, fun h => h4 h⟩
      intro h
      cases h
  | finishShutdown hph hdd =>
      exact ⟨fun _ => h1 (Or.inl hph), fun _ => hdd, fun h => h3 h,
        fun h => h4 h⟩
  | enqueueReset hop => exact ⟨h1, h2, h3, h4⟩
  | enqueueDelete hop => exact ⟨h1, h2, h3, h4⟩
  | wDequeue i hidle hlen =>
      refine ⟨h1, h2, ?_, h4⟩
      intro h
      exfalso
      have hx := h3 h i
      rw [hidle] at hx
      cases hx
  | wComplete i hbusy =>
      refine ⟨h1, h2, ?_, h4⟩
      intro h
      exfalso
      have hx := h3 h i
      rw [hbusy] at hx
      cases hx
  | wExit i hidle hclosed hlen =>
      refine ⟨h1, h2, ?_, h4⟩
      intro h
      exfalso
      have hx := h3 h i
      rw [hidle] at hx
      cases hx
  | loopClose hall =>
      exact ⟨fun _ => rfl, h2, fun _ => hall, h4⟩
  | dDequeue hnb hnex hlen =>
      refine ⟨h1, h2, h3, ?_⟩
      intro h
      exfalso
      have hx := (h4 h).1
      rw [hnex] at hx
      cases hx
  | dComplete hb =>
      exact ⟨h1, h2, h3, fun h => ⟨(h4 h).1, rfl⟩⟩
  | dExit hnb hnex hcl hlen =>
      exact ⟨h1, fun _ => rfl, h3, fun _ => ⟨rfl, hnb⟩⟩

theorem shutInv_reachable {n : Nat} {s0 s : ShutState n} (h0 : ShutInit s0)
    (hr : Relation.ReflTransGen (ShutStep n) s0 s) : ShutInv s := by
  induction hr with
  | refl =>
      obtain ⟨hp, hq, hd⟩ := h0
      refine ⟨?_, ?_, ?_, ?_⟩
      · intro h
        rcases h with h | h <;> rw [hp] at h <;> cases h
      · intro h
        rw [hp] at h
        cases h
      · intro h
        rw [hq] at h
        cases h
      · intro h
        rw [hd] at h
        cases h
  | tail hab hbc ih => exact shutInv_step ih hbc

/-- C9: in every execution from an initial state, once `Shutdown` has
returned, both completion channels are closed; the reset completion channel
is closed only once every reset worker has exited, and the delete completion
channel only once the delete loop has exited — so `Shutdown` blocks on both
pools being fully stopped. A worker exits only between items (exit requires
the idle state, after the closed queue is drained), so every item dequeued
before the close ran to completion; items still queued at close are drained
before exit in this model (best-effort in the presence of racing sends). -/
theorem autogit_C9_shutdown {n : Nat} (s0 s : ShutState n) (h0 : ShutInit s0)
    (hr : Relation.ReflTransGen (ShutStep n) s0 s)
    (hret : s.phase = SPhase.returned) : ShutdownConcl s := by
  obtain ⟨h1, h2, h3, h4⟩ := shutInv_reachable h0 hr
  have hq := h1 (Or.inr hret)
  have hd := h2 hret
  exact ⟨hq, hd, h3 hq, (h4 hd).1, (h4 hd).2⟩

/-- C9 witness: a complete concrete shutdown trace of a one-worker manager
— close queues, worker exits, `resetLoop` closes `queueDoneCh`, `Shutdown`
passes it, `deleteLoop` exits closing `deleteDoneCh`, `Shutdown` returns —
after which the conclusion holds. -/
theorem autogit_C9_witness : ShutdownConcl shutW6 := by
  have step1 : ShutStep 1 shutW0 shutW1 := ShutStep.closeQueues shutW0 rfl
  have step2 : ShutStep 1 shutW1 shutW2 :=
    ShutStep.wExit shutW1 0 rfl rfl rfl
  have step3 : ShutStep 1 shutW2 shutW3 := by
    refine ShutStep.loopClose shutW2 ?_
    intro i
    have hi : i = 0 := Subsingleton.elim i 0
    rw [hi]
    exact Function.update_same 0 WState.exited shutW1.workers
  have step4 : ShutStep 1 shutW3 shutW4 :=
    ShutStep.passQueueDone shutW3 rfl rfl
  have step5 : ShutStep 1 shutW4 shutW5 :=
    ShutStep.dExit shutW4 rfl rfl rfl rfl
  have step6 : ShutStep 1 shutW5 shutW6 :=
    ShutStep.finishShutdown shutW5 rfl rfl
  exact autogit_C9_shutdown shutW0 shutW6 ⟨rfl, rfl, rfl⟩
    (Relation.ReflTransGen.tail (Relation.ReflTransGen.tail
      (Relation.ReflTransGen.tail (Relation.ReflTransGen.tail
        (Relation.ReflTransGen.tail (Relation.ReflTransGen.single step1)
          step2) step3) step4) step5) step6) rfl

end Autogit
